import Mathlib

/-!
Verification development for the JSANDB record store (`src/model.ts`,
`src/database.ts`).  The `Model` class stores one JSON record per line of a
collection file.  Read operations stream the file line by line; mutating
operations stream the file into a temporary file and rename it over the
original.  This file gives a shallow embedding of those loops and proves the
stated properties.

Modelling conventions:
  * A JS value is modelled by `Value` (JSON values plus `vundef` for the JS
    `undefined` produced by a missing-property access).  Numbers are modelled
    as integers and strings are modelled without escape sequences — the
    fragment of JSON the verified properties exercise.
  * `JSON.parse` / `JSON.stringify` (external builtins) are modelled by the
    executable `jsonParse` / `encodeVal` below, on that fragment.
  * The mingo query engine is an external library; a compiled query's
    `test` method is abstracted as an arbitrary pure predicate
    `q : Value → Bool`, exactly how the loops in `model.ts` consume it.
  * A collection file is a list of lines (`List String`); `readline` yields
    the lines in order.  Each loop of `model.ts` is translated into a
    structurally identical recursion over that list, with `Option` as the
    effect of a thrown decode error: `none` models the rejected promise.
-/

namespace JSANDB

/-- Dynamically-typed value: JSON values (null, booleans, numbers, strings,
arrays, objects with insertion-ordered fields) plus `vundef`, the JS
`undefined` returned by a missing-property access.  Numbers are restricted to
integers. -/
inductive Value where
  | vnull : Value
  | vundef : Value
  | vbool : Bool → Value
  | vnum : Int → Value
  | vstr : String → Value
  | varr : List Value → Value
  | vobj : List (String × Value) → Value

open Value

mutual

/-- Structural equality test on values. -/
def beqVal : Value → Value → Bool
  | vnull, vnull => true
  | vundef, vundef => true
  | vbool x, vbool y => x == y
  | vnum x, vnum y => x == y
  | vstr x, vstr y => x == y
  | varr x, varr y => beqValList x y
  | vobj x, vobj y => beqValFields x y
  | _, _ => false

/-- Structural equality test on value lists. -/
def beqValList : List Value → List Value → Bool
  | [], [] => true
  | x :: xs, y :: ys => beqVal x y && beqValList xs ys
  | _, _ => false

/-- Structural equality test on field lists. -/
def beqValFields : List (String × Value) → List (String × Value) → Bool
  | [], [] => true
  | (k, x) :: xs, (m, y) :: ys => k == m && beqVal x y && beqValFields xs ys
  | _, _ => false

end

mutual

/-- Soundness of `beqVal` with respect to propositional equality. -/
theorem beqVal_iff : ∀ a b : Value, beqVal a b = true ↔ a = b
  | vnull, vnull => by simp [beqVal]
  | vnull, vundef => by simp [beqVal]
  | vnull, vbool _ => by simp [beqVal]
  | vnull, vnum _ => by simp [beqVal]
  | vnull, vstr _ => by simp [beqVal]
  | vnull, varr _ => by simp [beqVal]
  | vnull, vobj _ => by simp [beqVal]
  | vundef, vnull => by simp [beqVal]
  | vundef, vundef => by simp [beqVal]
  | vundef, vbool _ => by simp [beqVal]
  | vundef, vnum _ => by simp [beqVal]
  | vundef, vstr _ => by simp [beqVal]
  | vundef, varr _ => by simp [beqVal]
  | vundef, vobj _ => by simp [beqVal]
  | vbool _, vnull => by simp [beqVal]
  | vbool _, vundef => by simp [beqVal]
  | vbool x, vbool y => by simp [beqVal]
  | vbool _, vnum _ => by simp [beqVal]
  | vbool _, vstr _ => by simp [beqVal]
  | vbool _, varr _ => by simp [beqVal]
  | vbool _, vobj _ => by simp [beqVal]
  | vnum _, vnull => by simp [beqVal]
  | vnum _, vundef => by simp [beqVal]
  | vnum _, vbool _ => by simp [beqVal]
  | vnum x, vnum y => by simp [beqVal]
  | vnum _, vstr _ => by simp [beqVal]
  | vnum _, varr _ => by simp [beqVal]
  | vnum _, vobj _ => by simp [beqVal]
  | vstr _, vnull => by simp [beqVal]
  | vstr _, vundef => by simp [beqVal]
  | vstr _, vbool _ => by simp [beqVal]
  | vstr _, vnum _ => by simp [beqVal]
  | vstr x, vstr y => by simp [beqVal]
  | vstr _, varr _ => by simp [beqVal]
  | vstr _, vobj _ => by simp [beqVal]
  | varr _, vnull => by simp [beqVal]
  | varr _, vundef => by simp [beqVal]
  | varr _, vbool _ => by simp [beqVal]
  | varr _, vnum _ => by simp [beqVal]
  | varr _, vstr _ => by simp [beqVal]
  | varr x, varr y => by simp [beqVal, beqValList_iff x y]
  | varr _, vobj _ => by simp [beqVal]
  | vobj _, vnull => by simp [beqVal]
  | vobj _, vundef => by simp [beqVal]
  | vobj _, vbool _ => by simp [beqVal]
  | vobj _, vnum _ => by simp [beqVal]
  | vobj _, vstr _ => by simp [beqVal]
  | vobj _, varr _ => by simp [beqVal]
  | vobj x, vobj y => by simp [beqVal, beqValFields_iff x y]

/-- Soundness of `beqValList`. -/
theorem beqValList_iff : ∀ a b : List Value, beqValList a b = true ↔ a = b
  | [], [] => by simp [beqValList]
  | [], _ :: _ => by simp [beqValList]
  | _ :: _, [] => by simp [beqValList]
  | x :: xs, y :: ys => by simp [beqValList, beqVal_iff x y, beqValList_iff xs ys]

/-- Soundness of `beqValFields`. -/
theorem beqValFields_iff : ∀ a b : List (String × Value), beqValFields a b = true ↔ a = b
  | [], [] => by simp [beqValFields]
  | [], _ :: _ => by simp [beqValFields]
  | _ :: _, [] => by simp [beqValFields]
  | (k, x) :: xs, (m, y) :: ys => by
      simp [beqValFields, beqVal_iff x y, beqValFields_iff xs ys, Prod.ext_iff]

end

instance : DecidableEq Value := fun a b => decidable_of_iff _ (beqVal_iff a b)

/-- First-occurrence field lookup in an object's field list (JS property
access on parsed objects). -/
def lookupField : List (String × Value) → String → Option Value
  | [], _ => none
  | (k, v) :: rest, key => if k = key then some v else lookupField rest key

/-- Property-existence test (JS `in` / own-property presence). -/
def hasField (fs : List (String × Value)) (key : String) : Bool :=
  (lookupField fs key).isSome

/-- Fields contributed by spreading a value inside an object literal:
`\x7b...r\x7d` contributes `r`'s fields when `r` is an object and nothing when
`r` is a primitive.  (Array spread into an object, which contributes index
keys, is outside the modelled fragment.) -/
def spreadFields : Value → List (String × Value)
  | vobj fs => fs
  | _ => []

/-- Shallow merge of `u` over `r`, the JS object spread `\x7b...r, ...u\x7d`:
`r`'s keys keep their positions, with the value overwritten when `u` also
binds the key; keys only in `u` are appended in `u`'s order. -/
def mergeFields (r u : List (String × Value)) : List (String × Value) :=
  (r.map fun kv =>
    match lookupField u kv.1 with
    | some v => (kv.1, v)
    | none => kv) ++ u.filter fun kv => !hasField r kv.1

/-- Record-level shallow merge, the JS expression
`\x7b ...record, ...update \x7d` from `Model.update`. -/
def mergeVal (r : Value) (u : List (String × Value)) : Value :=
  vobj (mergeFields (spreadFields r) u)

/-- Property access `record[field]`: `undefined` when absent or when the
receiver is not an object. -/
def fieldGet (r : Value) (key : String) : Value :=
  match r with
  | vobj fs => (lookupField fs key).getD vundef
  | _ => vundef

/-- Primitive test: JS `Set` membership compares primitives by value
(SameValueZero) while objects and arrays compare by reference. -/
def isPrim : Value → Bool
  | varr _ => false
  | vobj _ => false
  | _ => true

/-- Model of `Set.add` on the accumulator used by `Model.distinct`.  Each
value inserted by the scan comes from a freshly parsed line, so a composite
value is a fresh reference and is always added; a primitive is added only if
no equal primitive is present. -/
def jsSetInsert (acc : List Value) (v : Value) : List Value :=
  if isPrim v && acc.contains v then acc else acc ++ [v]

mutual

/-- Encoding of a value, the model of `JSON.stringify` on the fragment:
no whitespace, object fields in insertion order. -/
def encodeVal : Value → String
  | vnull => "null"
  | vundef => "null"
  | vbool true => "true"
  | vbool false => "false"
  | vnum n => toString n
  | vstr s => "\"" ++ s ++ "\""
  | varr es => "[" ++ encodeList es ++ "]"
  | vobj fs => "\x7b" ++ encodeFields fs ++ "\x7d"

/-- Comma-join of encoded array elements. -/
def encodeList : List Value → String
  | [] => ""
  | [v] => encodeVal v
  | v :: rest => encodeVal v ++ "," ++ encodeList rest

/-- Comma-join of encoded object members. -/
def encodeFields : List (String × Value) → String
  | [] => ""
  | [(k, v)] => "\"" ++ k ++ "\":" ++ encodeVal v
  | (k, v) :: rest => "\"" ++ k ++ "\":" ++ encodeVal v ++ "," ++ encodeFields rest

end

/-- JSON insignificant whitespace. -/
def isWsChar (c : Char) : Bool :=
  c = ' ' || c = '\t' || c = '\n' || c = '\r'

/-- Skip insignificant whitespace. -/
def skipWs (cs : List Char) : List Char :=
  cs.dropWhile isWsChar

/-- ASCII digit test. -/
def isDigitChar (c : Char) : Bool :=
  '0' ≤ c && c ≤ '9'

/-- Numeric value of a digit string. -/
def digitsToNat (ds : List Char) : Nat :=
  ds.foldl (fun acc c => acc * 10 + (c.toNat - 48)) 0

/-- Parse a JSON string body after the opening quote (escape-free fragment). -/
def parseStringBody : List Char → Option (String × List Char)
  | [] => none
  | c :: rest =>
    if c = '"' then some ("", rest)
    else if c = '\\' then none
    else
      match parseStringBody rest with
      | some (s, r) => some (String.mk (c :: s.data), r)
      | none => none

/-- Parse an integer numeral (the modelled number fragment). -/
def parseNum : List Char → Option (Value × List Char)
  | '-' :: rest =>
    let ds := rest.takeWhile isDigitChar
    if ds.isEmpty then none
    else some (vnum (-(digitsToNat ds : Int)), rest.dropWhile isDigitChar)
  | cs =>
    let ds := cs.takeWhile isDigitChar
    if ds.isEmpty then none
    else some (vnum (digitsToNat ds), cs.dropWhile isDigitChar)

/-- Match an expected literal tail (for `true`, `false`, `null`). -/
def matchLit : List Char → List Char → Option (List Char)
  | [], cs => some cs
  | p :: ps, c :: cs => if c = p then matchLit ps cs else none
  | _ :: _, [] => none

mutual

/-- Recursive-descent JSON parser (model of `JSON.parse` on the fragment),
with a fuel argument for termination.  `parseVal` expects its input to start
at a non-whitespace character. -/
def parseVal : Nat → List Char → Option (Value × List Char)
  | 0, _ => none
  | fuel + 1, cs =>
    match cs with
    | [] => none
    | c :: rest =>
      if c = '\x7b' then
        match skipWs rest with
        | '\x7d' :: rest2 => some (vobj [], rest2)
        | cs2 => (parseMembers fuel cs2).map fun p => (vobj p.1, p.2)
      else if c = '[' then
        match skipWs rest with
        | ']' :: rest2 => some (varr [], rest2)
        | cs2 => (parseElems fuel cs2).map fun p => (varr p.1, p.2)
      else if c = '"' then
        (parseStringBody rest).map fun p => (vstr p.1, p.2)
      else if c = 't' then
        (matchLit ['r', 'u', 'e'] rest).map fun r => (vbool true, r)
      else if c = 'f' then
        (matchLit ['a', 'l', 's', 'e'] rest).map fun r => (vbool false, r)
      else if c = 'n' then
        (matchLit ['u', 'l', 'l'] rest).map fun r => (vnull, r)
      else parseNum cs

/-- Parse the elements of a non-empty array, after the opening bracket. -/
def parseElems : Nat → List Char → Option (List Value × List Char)
  | 0, _ => none
  | fuel + 1, cs =>
    match parseVal fuel (skipWs cs) with
    | none => none
    | some (v, rest) =>
      match skipWs rest with
      | ',' :: rest2 => (parseElems fuel rest2).map fun p => (v :: p.1, p.2)
      | ']' :: rest2 => some ([v], rest2)
      | _ => none

/-- Parse the members of a non-empty object, after the opening brace. -/
def parseMembers : Nat → List Char → Option (List (String × Value) × List Char)
  | 0, _ => none
  | fuel + 1, cs =>
    match skipWs cs with
    | '"' :: rest =>
      match parseStringBody rest with
      | none => none
      | some (k, rest2) =>
        match skipWs rest2 with
        | ':' :: rest3 =>
          match parseVal fuel (skipWs rest3) with
          | none => none
          | some (v, rest4) =>
            match skipWs rest4 with
            | ',' :: rest5 => (parseMembers fuel rest5).map fun p => ((k, v) :: p.1, p.2)
            | '\x7d' :: rest5 => some ([(k, v)], rest5)
            | _ => none
        | _ => none
    | _ => none

end

/-- Model of `JSON.parse`: parse one value and require only whitespace after
it; `none` models a thrown `SyntaxError`. -/
def jsonParse (s : String) : Option Value :=
  match parseVal (s.length + 1) (skipWs s.data) with
  | some (v, rest) => if (skipWs rest).isEmpty then some v else none
  | none => none

/-- Blank-line test: the JS guard `!line.trim()` that every loop of
`model.ts` applies before decoding a line.  `line.trim()` is falsy exactly
when every character of the line is whitespace. -/
def isBlank (l : String) : Bool :=
  l.data.all isWsChar

/-- Loop of `Model.find`: skip blank lines, decode, collect matches in file
order.  `none` models a thrown decode error. -/
def findGo (q : Value → Bool) : List String → List Value → Option (List Value)
  | [], acc => some acc
  | l :: ls, acc =>
    if isBlank l then findGo q ls acc
    else
      match jsonParse l with
      | none => none
      | some r => findGo q ls (if q r then acc ++ [r] else acc)

/-- `Model.find`: all matching records, in file order. -/
def findLines (q : Value → Bool) (lines : List String) : Option (List Value) :=
  findGo q lines []

/-- `Model.findOne`: first matching record (inner `none` is JS `null`),
stopping the scan at the first match. -/
def findOneLines (q : Value → Bool) : List String → Option (Option Value)
  | [] => some none
  | l :: ls =>
    if isBlank l then findOneLines q ls
    else
      match jsonParse l with
      | none => none
      | some r => if q r then some (some r) else findOneLines q ls

/-- Loop of `Model.count`. -/
def countGo (q : Value → Bool) : List String → Nat → Option Nat
  | [], n => some n
  | l :: ls, n =>
    if isBlank l then countGo q ls n
    else
      match jsonParse l with
      | none => none
      | some r => countGo q ls (if q r then n + 1 else n)

/-- `Model.count`: number of matching records. -/
def countLines (q : Value → Bool) (lines : List String) : Option Nat :=
  countGo q lines 0

/-- Loop of `Model.update`: every record is re-encoded to the temporary
file, matching records after the shallow merge of the patch over them. -/
def updateGo (q : Value → Bool) (u : List (String × Value)) :
    List String → List String → Option (List String)
  | [], out => some out
  | l :: ls, out =>
    if isBlank l then updateGo q u ls out
    else
      match jsonParse l with
      | none => none
      | some r => updateGo q u ls (out ++ [encodeVal (if q r then mergeVal r u else r)])

/-- `Model.update`: the lines of the temporary file on success. -/
def updateRun (q : Value → Bool) (u : List (String × Value)) (lines : List String) :
    Option (List String) :=
  updateGo q u lines []

/-- Loop of `Model.delete`: matching records are counted and dropped,
non-matching records are re-encoded to the temporary file. -/
def deleteGo (q : Value → Bool) : List String → Nat → List String → Option (Nat × List String)
  | [], n, out => some (n, out)
  | l :: ls, n, out =>
    if isBlank l then deleteGo q ls n out
    else
      match jsonParse l with
      | none => none
      | some r =>
        if q r then deleteGo q ls (n + 1) out
        else deleteGo q ls n (out ++ [encodeVal r])

/-- `Model.delete`: deleted count and the temporary file's lines on success. -/
def deleteRun (q : Value → Bool) (lines : List String) : Option (Nat × List String) :=
  deleteGo q lines 0 []

/-- Loop of `Model.findOneAndUpdate`: the `updated` flag disables matching
after the first hit; `ret` carries `updatedRecord`. -/
def fOAUGo (q : Value → Bool) (u : List (String × Value)) :
    List String → Bool → Option Value → List String → Option (Option Value × List String)
  | [], _, ret, out => some (ret, out)
  | l :: ls, updated, ret, out =>
    if isBlank l then fOAUGo q u ls updated ret out
    else
      match jsonParse l with
      | none => none
      | some r =>
        if !updated && q r then
          fOAUGo q u ls true (some (mergeVal r u)) (out ++ [encodeVal (mergeVal r u)])
        else fOAUGo q u ls updated ret (out ++ [encodeVal r])

/-- `Model.findOneAndUpdate`: returned record (inner `none` is JS `null`)
and the temporary file's lines on success. -/
def fOAURun (q : Value → Bool) (u : List (String × Value)) (lines : List String) :
    Option (Option Value × List String) :=
  fOAUGo q u lines false none []

/-- Loop of `Model.findOneAndDelete`: the `deleted` flag disables matching
after the first hit; `ret` carries `deletedRecord`. -/
def fOADGo (q : Value → Bool) :
    List String → Bool → Option Value → List String → Option (Option Value × List String)
  | [], _, ret, out => some (ret, out)
  | l :: ls, deleted, ret, out =>
    if isBlank l then fOADGo q ls deleted ret out
    else
      match jsonParse l with
      | none => none
      | some r =>
        if !deleted && q r then fOADGo q ls true (some r) out
        else fOADGo q ls deleted ret (out ++ [encodeVal r])

/-- `Model.findOneAndDelete`: returned record and the temporary file's lines
on success. -/
def fOADRun (q : Value → Bool) (lines : List String) : Option (Option Value × List String) :=
  fOADGo q lines false none []

/-- Loop of `Model.distinct`: `values.add(record[field])` on each match. -/
def distinctGo (q : Value → Bool) (field : String) : List String → List Value → Option (List Value)
  | [], acc => some acc
  | l :: ls, acc =>
    if isBlank l then distinctGo q field ls acc
    else
      match jsonParse l with
      | none => none
      | some r =>
        if q r then distinctGo q field ls (jsSetInsert acc (fieldGet r field))
        else distinctGo q field ls acc

/-- `Model.distinct`: `Array.from(values)`, insertion order. -/
def distinctLines (q : Value → Bool) (field : String) (lines : List String) :
    Option (List Value) :=
  distinctGo q field lines []

/-- Per-record projection of `Model.project`: include-listed fields if any,
else all fields except the exclude-listed ones, else the whole record. -/
def projectRecord (includeFields excludeFields : List String) (r : Value) : Value :=
  if !includeFields.isEmpty then
    vobj (includeFields.map fun k => (k, fieldGet r k))
  else if !excludeFields.isEmpty then
    vobj ((spreadFields r).filter fun kv => !excludeFields.contains kv.1)
  else r

/-- Loop of `Model.project`. -/
def projectGo (q : Value → Bool) (includeFields excludeFields : List String) :
    List String → List Value → Option (List Value)
  | [], acc => some acc
  | l :: ls, acc =>
    if isBlank l then projectGo q includeFields excludeFields ls acc
    else
      match jsonParse l with
      | none => none
      | some r =>
        if q r then
          projectGo q includeFields excludeFields ls
            (acc ++ [projectRecord includeFields excludeFields r])
        else projectGo q includeFields excludeFields ls acc

/-- `Model.project`: include and exclude field lists extracted from the
projection spec (`1` entries and `0` entries respectively), then a scan. -/
def projectLines (q : Value → Bool) (proj : List (String × Nat)) (lines : List String) :
    Option (List Value) :=
  projectGo q ((proj.filter fun kv => kv.2 = 1).map fun kv => kv.1)
    ((proj.filter fun kv => kv.2 = 0).map fun kv => kv.1) lines []

/-- Loop of `Model.paginate`, with the counters `total`, `skipped` and
`taken` and the early `break` once the requested page is filled.  A matching
record in the skip phase reaches `continue` before the break test, exactly as
in the source. -/
def paginateGo (q : Value → Bool) (page pageSize : Int) :
    List String → Int → Int → Int → List Value → Option (List Value × Int)
  | [], total, _, _, acc => some (acc, total)
  | l :: ls, total, skipped, taken, acc =>
    if isBlank l then paginateGo q page pageSize ls total skipped taken acc
    else
      match jsonParse l with
      | none => none
      | some r =>
        if q r then
          if skipped < (page - 1) * pageSize then
            paginateGo q page pageSize ls (total + 1) (skipped + 1) taken acc
          else
            let step := if taken < pageSize then (acc ++ [r], taken + 1) else (acc, taken)
            if step.2 ≥ pageSize then some (step.1, total + 1)
            else paginateGo q page pageSize ls (total + 1) skipped step.2 step.1
        else
          if taken ≥ pageSize then some (acc, total)
          else paginateGo q page pageSize ls total skipped taken acc

/-- `Model.paginate`: the returned `data` and `total` (the result object also
echoes `page` and `pageSize` verbatim). -/
def paginateLines (q : Value → Bool) (page pageSize : Int) (lines : List String) :
    Option (List Value × Int) :=
  paginateGo q page pageSize lines 0 0 0 []

/-- Final content of the collection file after a rewrite operation: the
`fs.rename` of the temporary file over the original path runs only after the
rewrite loop finished and the write stream was flushed; on a thrown error the
rename is never reached, so the original lines remain. -/
def finalFile (file : List String) : Option (List String) → List String
  | some newContent => newContent
  | none => file

/-- `Model.getAll`: the whole file content parsed as a single JSON value. -/
def getAllModel (content : String) : Option Value :=
  jsonParse content

/-- Placeholder written by `Database.createModel` for a fresh collection:
`JSON.stringify([], null, 2)`. -/
def placeholderFile : String :=
  "[]"

/-- Lines appended by successive `Model.insert` calls: each appends
`JSON.stringify(data) + "\n"` to the file. -/
def insertedLines : List Value → String
  | [] => ""
  | r :: rs => encodeVal r ++ ("\n" ++ insertedLines rs)

/-- Collection file content after `Model.insert` appended the given records
to the freshly created placeholder. -/
def fileAfterInserts (recs : List Value) : String :=
  placeholderFile ++ insertedLines recs

/-- Model of `os.tmpdir()`. -/
def osTmpdir : String :=
  "/tmp"

/-- Model of `path.join` on a directory and a file name. -/
def joinPath (a b : String) : String :=
  a ++ "/" ++ b

/-- Temporary path chosen by `Model.update`:
`join(tmpdir(), "model-update-" + Date.now() + ".jsonl")`.  The collection's
`filePath` is in scope in the source but unused. -/
def updateTempPath (filePath : String) (now : Nat) : String :=
  joinPath osTmpdir ("model-update-" ++ toString now ++ ".jsonl")

/-- Temporary path chosen by `Model.delete`. -/
def deleteTempPath (filePath : String) (now : Nat) : String :=
  joinPath osTmpdir ("model-delete-" ++ toString now ++ ".jsonl")

/-- Temporary path chosen by `Model.findOneAndUpdate`. -/
def fOAUTempPath (filePath : String) (now : Nat) : String :=
  joinPath osTmpdir ("model-findoneupdate-" ++ toString now ++ ".jsonl")

/-- Temporary path chosen by `Model.findOneAndDelete`. -/
def fOADTempPath (filePath : String) (now : Nat) : String :=
  joinPath osTmpdir ("model-findonedelete-" ++ toString now ++ ".jsonl")

/-- Split a character list at every path separator. -/
def splitSlash : List Char → List (List Char)
  | [] => [[]]
  | c :: cs =>
    let r := splitSlash cs
    if c = '/' then [] :: r
    else
      match r with
      | [] => [[c]]
      | h :: t => (c :: h) :: t

/-- Rejoin path components with separators. -/
def joinSlash : List (List Char) → List Char
  | [] => []
  | [p] => p
  | p :: rest => p ++ '/' :: joinSlash rest

/-- Directory of a path: everything before the last separator (model of
`path.dirname` on the absolute multi-component paths used here). -/
def dirname (p : String) : String :=
  String.mk (joinSlash ((splitSlash p.data).dropLast))

/-- Decoded records of a line list: blank lines are skipped, every other
line must decode.  This is the record sequence the spec's invariants are
stated over. -/
def decodeAll : List String → Option (List Value)
  | [] => some []
  | l :: ls =>
    if isBlank l then decodeAll ls
    else
      match jsonParse l with
      | none => none
      | some r => (decodeAll ls).map fun rs => r :: rs

/-- Modelled from the spec: survivors of `update` — every record, matching
ones replaced by the shallow merge of the patch over them. -/
def updateSurvivors (q : Value → Bool) (u : List (String × Value)) (recs : List Value) :
    List Value :=
  recs.map fun r => if q r then mergeVal r u else r

/-- Modelled from the spec: survivors of `delete` — exactly the
non-matching records, order preserved. -/
def deleteSurvivors (q : Value → Bool) (recs : List Value) : List Value :=
  recs.filter fun r => !q r

/-- Modelled from the spec: survivors of `findOneAndUpdate` — only the first
match, in file order, is replaced by the merge; all later records, matching
or not, pass through unchanged. -/
def firstUpdateSurvivors (q : Value → Bool) (u : List (String × Value)) :
    List Value → List Value
  | [] => []
  | r :: rs => if q r then mergeVal r u :: rs else r :: firstUpdateSurvivors q u rs

/-- Modelled from the spec: survivors of `findOneAndDelete` — only the first
match, in file order, is dropped; all later records pass through unchanged. -/
def firstDeleteSurvivors (q : Value → Bool) : List Value → List Value
  | [] => []
  | r :: rs => if q r then rs else r :: firstDeleteSurvivors q rs

/-- Correspondence of the `Model.update` loop with the declarative survivor
list: on a decodable file the temporary file receives exactly the encoded
survivors, appended to the accumulator. -/
theorem updateGo_eq (q : Value → Bool) (u : List (String × Value)) :
    ∀ (lines : List String) (recs : List Value) (out : List String),
      decodeAll lines = some recs →
      updateGo q u lines out = some (out ++ (updateSurvivors q u recs).map encodeVal)
  | [], recs, out, h => by
      simp [decodeAll] at h
      subst h
      simp [updateGo, updateSurvivors]
  | l :: ls, recs, out, h => by
      by_cases hb : isBlank l
      · rw [decodeAll] at h
        rw [if_pos hb] at h
        rw [updateGo, if_pos hb]
        exact updateGo_eq q u ls recs out h
      · rw [decodeAll, if_neg hb] at h
        rw [updateGo, if_neg hb]
        cases hj : jsonParse l with
        | none => rw [hj] at h; cases h
        | some r =>
            dsimp only
            rw [hj] at h
            cases hd : decodeAll ls with
            | none => rw [hd] at h; cases h
            | some rs =>
                rw [hd] at h
                injection h with h
                subst h
                rw [updateGo_eq q u ls rs _ hd]
                simp [updateSurvivors]

/-- Correspondence of the `Model.delete` loop with the declarative survivor
list: the count grows by the number of matches and the temporary file
receives exactly the encoded non-matching records. -/
theorem deleteGo_eq (q : Value → Bool) :
    ∀ (lines : List String) (recs : List Value) (n : Nat) (out : List String),
      decodeAll lines = some recs →
      deleteGo q lines n out =
        some (n + (recs.filter q).length, out ++ (deleteSurvivors q recs).map encodeVal)
  | [], recs, n, out, h => by
      simp [decodeAll] at h
      subst h
      simp [deleteGo, deleteSurvivors]
  | l :: ls, recs, n, out, h => by
      by_cases hb : isBlank l
      · rw [decodeAll, if_pos hb] at h
        rw [deleteGo, if_pos hb]
        exact deleteGo_eq q ls recs n out h
      · rw [decodeAll, if_neg hb] at h
        rw [deleteGo, if_neg hb]
        cases hj : jsonParse l with
        | none => rw [hj] at h; cases h
        | some r =>
            dsimp only
            rw [hj] at h
            cases hd : decodeAll ls with
            | none => rw [hd] at h; cases h
            | some rs =>
                rw [hd] at h
                injection h with h
                subst h
                by_cases hq : q r
                · rw [if_pos hq, deleteGo_eq q ls rs (n + 1) out hd]
                  simp [deleteSurvivors, hq, Nat.add_assoc, Nat.add_comm 1]
                · rw [if_neg hq, deleteGo_eq q ls rs n _ hd]
                  simp [deleteSurvivors, hq]

/-- After the first hit the `updated` flag is set and the
`Model.findOneAndUpdate` loop passes every remaining record through
unchanged, whether it matches or not. -/
theorem fOAUGo_pass (q : Value → Bool) (u : List (String × Value)) :
    ∀ (lines : List String) (recs : List Value) (ret : Option Value) (out : List String),
      decodeAll lines = some recs →
      fOAUGo q u lines true ret out = some (ret, out ++ recs.map encodeVal)
  | [], recs, ret, out, h => by
      simp [decodeAll] at h
      subst h
      simp [fOAUGo]
  | l :: ls, recs, ret, out, h => by
      by_cases hb : isBlank l
      · rw [decodeAll, if_pos hb] at h
        rw [fOAUGo, if_pos hb]
        exact fOAUGo_pass q u ls recs ret out h
      · rw [decodeAll, if_neg hb] at h
        rw [fOAUGo, if_neg hb]
        cases hj : jsonParse l with
        | none => rw [hj] at h; cases h
        | some r =>
            dsimp only
            rw [hj] at h
            cases hd : decodeAll ls with
            | none => rw [hd] at h; cases h
            | some rs =>
                rw [hd] at h
                injection h with h
                subst h
                rw [show (!true && q r) = false by simp]
                rw [if_neg (by decide : ¬((false : Bool) = true))]
                rw [fOAUGo_pass q u ls rs ret _ hd]
                simp

/-- Correspondence of the `Model.findOneAndUpdate` loop, before any hit,
with the declarative first-match semantics: the returned record is the merge
of the first match (or `null`), and the temporary file receives the encoded
first-match survivors. -/
theorem fOAUGo_eq (q : Value → Bool) (u : List (String × Value)) :
    ∀ (lines : List String) (recs : List Value) (out : List String),
      decodeAll lines = some recs →
      fOAUGo q u lines false none out =
        some ((recs.find? q).map fun r => mergeVal r u,
          out ++ (firstUpdateSurvivors q u recs).map encodeVal)
  | [], recs, out, h => by
      simp [decodeAll] at h
      subst h
      simp [fOAUGo, firstUpdateSurvivors]
  | l :: ls, recs, out, h => by
      by_cases hb : isBlank l
      · rw [decodeAll, if_pos hb] at h
        rw [fOAUGo, if_pos hb]
        exact fOAUGo_eq q u ls recs out h
      · rw [decodeAll, if_neg hb] at h
        rw [fOAUGo, if_neg hb]
        cases hj : jsonParse l with
        | none => rw [hj] at h; cases h
        | some r =>
            dsimp only
            rw [hj] at h
            cases hd : decodeAll ls with
            | none => rw [hd] at h; cases h
            | some rs =>
                rw [hd] at h
                injection h with h
                subst h
                by_cases hq : q r
                · rw [show (!false && q r) = true by simp [hq]]
                  rw [if_pos rfl]
                  rw [fOAUGo_pass q u ls rs _ _ hd]
                  simp [List.find?_cons_of_pos _ hq, firstUpdateSurvivors, hq]
                · rw [show (!false && q r) = false by simp [hq]]
                  rw [if_neg (by decide : ¬((false : Bool) = true))]
                  rw [fOAUGo_eq q u ls rs _ hd]
                  simp [List.find?_cons_of_neg _ hq, firstUpdateSurvivors, hq]

/-- After the first hit the `deleted` flag is set and the
`Model.findOneAndDelete` loop passes every remaining record through
unchanged, whether it matches or not. -/
theorem fOADGo_pass (q : Value → Bool) :
    ∀ (lines : List String) (recs : List Value) (ret : Option Value) (out : List String),
      decodeAll lines = some recs →
      fOADGo q lines true ret out = some (ret, out ++ recs.map encodeVal)
  | [], recs, ret, out, h => by
      simp [decodeAll] at h
      subst h
      simp [fOADGo]
  | l :: ls, recs, ret, out, h => by
      by_cases hb : isBlank l
      · rw [decodeAll, if_pos hb] at h
        rw [fOADGo, if_pos hb]
        exact fOADGo_pass q ls recs ret out h
      · rw [decodeAll, if_neg hb] at h
        rw [fOADGo, if_neg hb]
        cases hj : jsonParse l with
        | none => rw [hj] at h; cases h
        | some r =>
            dsimp only
            rw [hj] at h
            cases hd : decodeAll ls with
            | none => rw [hd] at h; cases h
            | some rs =>
                rw [hd] at h
                injection h with h
                subst h
                rw [show (!true && q r) = false by simp]
                rw [if_neg (by decide : ¬((false : Bool) = true))]
                rw [fOADGo_pass q ls rs ret _ hd]
                simp

/-- Correspondence of the `Model.findOneAndDelete` loop, before any hit,
with the declarative first-match semantics: the returned record is the first
match (or `null`), and the temporary file receives the encoded first-match
survivors. -/
theorem fOADGo_eq (q : Value → Bool) :
    ∀ (lines : List String) (recs : List Value) (out : List String),
      decodeAll lines = some recs →
      fOADGo q lines false none out =
        some (recs.find? q, out ++ (firstDeleteSurvivors q recs).map encodeVal)
  | [], recs, out, h => by
      simp [decodeAll] at h
      subst h
      simp [fOADGo, firstDeleteSurvivors]
  | l :: ls, recs, out, h => by
      by_cases hb : isBlank l
      · rw [decodeAll, if_pos hb] at h
        rw [fOADGo, if_pos hb]
        exact fOADGo_eq q ls recs out h
      · rw [decodeAll, if_neg hb] at h
        rw [fOADGo, if_neg hb]
        cases hj : jsonParse l with
        | none => rw [hj] at h; cases h
        | some r =>
            dsimp only
            rw [hj] at h
            cases hd : decodeAll ls with
            | none => rw [hd] at h; cases h
            | some rs =>
                rw [hd] at h
                injection h with h
                subst h
                by_cases hq : q r
                · rw [show (!false && q r) = true by simp [hq]]
                  rw [if_pos rfl]
                  rw [fOADGo_pass q ls rs _ _ hd]
                  simp [List.find?_cons_of_pos _ hq, firstDeleteSurvivors, hq]
                · rw [show (!false && q r) = false by simp [hq]]
                  rw [if_neg (by decide : ¬((false : Bool) = true))]
                  rw [fOADGo_eq q ls rs _ hd]
                  simp [List.find?_cons_of_neg _ hq, firstDeleteSurvivors, hq]

/-- Blank lines do not affect the `find` loop. -/
theorem findGo_blank (q : Value → Bool) :
    ∀ (lines : List String) (acc : List Value),
      findGo q (lines.filter fun l => !isBlank l) acc = findGo q lines acc
  | [], _ => rfl
  | l :: ls, acc => by
      by_cases hb : isBlank l
      · rw [List.filter_cons, if_neg (by simp [hb])]
        rw [findGo, if_pos hb]
        exact findGo_blank q ls acc
      · rw [List.filter_cons, if_pos (by simp [hb])]
        rw [findGo, if_neg hb, findGo, if_neg hb]
        cases jsonParse l with
        | none => rfl
        | some r => exact findGo_blank q ls _

/-- Blank lines do not affect `findOne`. -/
theorem findOneLines_blank (q : Value → Bool) :
    ∀ (lines : List String),
      findOneLines q (lines.filter fun l => !isBlank l) = findOneLines q lines
  | [] => rfl
  | l :: ls => by
      by_cases hb : isBlank l
      · rw [List.filter_cons, if_neg (by simp [hb])]
        rw [findOneLines, if_pos hb]
        exact findOneLines_blank q ls
      · rw [List.filter_cons, if_pos (by simp [hb])]
        rw [findOneLines, if_neg hb, findOneLines, if_neg hb]
        cases jsonParse l with
        | none => rfl
        | some r =>
            dsimp only
            by_cases hq : q r
            · rw [if_pos hq, if_pos hq]
            · rw [if_neg hq, if_neg hq]
              exact findOneLines_blank q ls

/-- Blank lines do not affect the `count` loop. -/
theorem countGo_blank (q : Value → Bool) :
    ∀ (lines : List String) (n : Nat),
      countGo q (lines.filter fun l => !isBlank l) n = countGo q lines n
  | [], _ => rfl
  | l :: ls, n => by
      by_cases hb : isBlank l
      · rw [List.filter_cons, if_neg (by simp [hb])]
        rw [countGo, if_pos hb]
        exact countGo_blank q ls n
      · rw [List.filter_cons, if_pos (by simp [hb])]
        rw [countGo, if_neg hb, countGo, if_neg hb]
        cases jsonParse l with
        | none => rfl
        | some r => exact countGo_blank q ls _

/-- Blank lines do not affect the `distinct` loop. -/
theorem distinctGo_blank (q : Value → Bool) (field : String) :
    ∀ (lines : List String) (acc : List Value),
      distinctGo q field (lines.filter fun l => !isBlank l) acc = distinctGo q field lines acc
  | [], _ => rfl
  | l :: ls, acc => by
      by_cases hb : isBlank l
      · rw [List.filter_cons, if_neg (by simp [hb])]
        rw [distinctGo, if_pos hb]
        exact distinctGo_blank q field ls acc
      · rw [List.filter_cons, if_pos (by simp [hb])]
        rw [distinctGo, if_neg hb, distinctGo, if_neg hb]
        cases jsonParse l with
        | none => rfl
        | some r =>
            dsimp only
            by_cases hq : q r
            · rw [if_pos hq, if_pos hq]
              exact distinctGo_blank q field ls _
            · rw [if_neg hq, if_neg hq]
              exact distinctGo_blank q field ls acc

/-- Blank lines do not affect the `project` loop. -/
theorem projectGo_blank (q : Value → Bool) (incF excF : List String) :
    ∀ (lines : List String) (acc : List Value),
      projectGo q incF excF (lines.filter fun l => !isBlank l) acc = projectGo q incF excF lines acc
  | [], _ => rfl
  | l :: ls, acc => by
      by_cases hb : isBlank l
      · rw [List.filter_cons, if_neg (by simp [hb])]
        rw [projectGo, if_pos hb]
        exact projectGo_blank q incF excF ls acc
      · rw [List.filter_cons, if_pos (by simp [hb])]
        rw [projectGo, if_neg hb, projectGo, if_neg hb]
        cases jsonParse l with
        | none => rfl
        | some r =>
            dsimp only
            by_cases hq : q r
            · rw [if_pos hq, if_pos hq]
              exact projectGo_blank q incF excF ls _
            · rw [if_neg hq, if_neg hq]
              exact projectGo_blank q incF excF ls acc

/-- Blank lines do not affect the `paginate` loop, whatever the counter
state. -/
theorem paginateGo_blank (q : Value → Bool) (page pageSize : Int) :
    ∀ (lines : List String) (total skipped taken : Int) (acc : List Value),
      paginateGo q page pageSize (lines.filter fun l => !isBlank l) total skipped taken acc =
        paginateGo q page pageSize lines total skipped taken acc
  | [], _, _, _, _ => rfl
  | l :: ls, total, skipped, taken, acc => by
      by_cases hb : isBlank l
      · rw [List.filter_cons, if_neg (by simp [hb])]
        rw [paginateGo, if_pos hb]
        exact paginateGo_blank q page pageSize ls total skipped taken acc
      · rw [List.filter_cons, if_pos (by simp [hb])]
        rw [paginateGo, if_neg hb, paginateGo, if_neg hb]
        cases jsonParse l with
        | none => rfl
        | some r =>
            dsimp only
            by_cases hq : q r
            · rw [if_pos hq, if_pos hq]
              by_cases hs : skipped < (page - 1) * pageSize
              · rw [if_pos hs, if_pos hs]
                exact paginateGo_blank q page pageSize ls _ _ _ _
              · rw [if_neg hs, if_neg hs]
                by_cases ht : (if taken < pageSize then (acc ++ [r], taken + 1) else (acc, taken)).2 ≥ pageSize
                · rw [if_pos ht, if_pos ht]
                · rw [if_neg ht, if_neg ht]
                  exact paginateGo_blank q page pageSize ls _ _ _ _
            · rw [if_neg hq, if_neg hq]
              by_cases ht : taken ≥ pageSize
              · rw [if_pos ht, if_pos ht]
              · rw [if_neg ht, if_neg ht]
                exact paginateGo_blank q page pageSize ls _ _ _ _

/-- Blank lines do not affect the `update` rewrite loop. -/
theorem updateGo_blank (q : Value → Bool) (u : List (String × Value)) :
    ∀ (lines : List String) (out : List String),
      updateGo q u (lines.filter fun l => !isBlank l) out = updateGo q u lines out
  | [], _ => rfl
  | l :: ls, out => by
      by_cases hb : isBlank l
      · rw [List.filter_cons, if_neg (by simp [hb])]
        rw [updateGo, if_pos hb]
        exact updateGo_blank q u ls out
      · rw [List.filter_cons, if_pos (by simp [hb])]
        rw [updateGo, if_neg hb, updateGo, if_neg hb]
        cases jsonParse l with
        | none => rfl
        | some r => exact updateGo_blank q u ls _

/-- Blank lines do not affect the `delete` rewrite loop. -/
theorem deleteGo_blank (q : Value → Bool) :
    ∀ (lines : List String) (n : Nat) (out : List String),
      deleteGo q (lines.filter fun l => !isBlank l) n out = deleteGo q lines n out
  | [], _, _ => rfl
  | l :: ls, n, out => by
      by_cases hb : isBlank l
      · rw [List.filter_cons, if_neg (by simp [hb])]
        rw [deleteGo, if_pos hb]
        exact deleteGo_blank q ls n out
      · rw [List.filter_cons, if_pos (by simp [hb])]
        rw [deleteGo, if_neg hb, deleteGo, if_neg hb]
        cases jsonParse l with
        | none => rfl
        | some r =>
            dsimp only
            by_cases hq : q r
            · rw [if_pos hq, if_pos hq]
              exact deleteGo_blank q ls _ out
            · rw [if_neg hq, if_neg hq]
              exact deleteGo_blank q ls n _

/-- Blank lines do not affect the `findOneAndUpdate` rewrite loop. -/
theorem fOAUGo_blank (q : Value → Bool) (u : List (String × Value)) :
    ∀ (lines : List String) (updated : Bool) (ret : Option Value) (out : List String),
      fOAUGo q u (lines.filter fun l => !isBlank l) updated ret out =
        fOAUGo q u lines updated ret out
  | [], _, _, _ => rfl
  | l :: ls, updated, ret, out => by
      by_cases hb : isBlank l
      · rw [List.filter_cons, if_neg (by simp [hb])]
        rw [fOAUGo, if_pos hb]
        exact fOAUGo_blank q u ls updated ret out
      · rw [List.filter_cons, if_pos (by simp [hb])]
        rw [fOAUGo, if_neg hb, fOAUGo, if_neg hb]
        cases jsonParse l with
        | none => rfl
        | some r =>
            dsimp only
            by_cases hq : (!updated && q r) = true
            · rw [if_pos hq, if_pos hq]
              exact fOAUGo_blank q u ls _ _ _
            · rw [if_neg hq, if_neg hq]
              exact fOAUGo_blank q u ls _ _ _

/-- Blank lines do not affect the `findOneAndDelete` rewrite loop. -/
theorem fOADGo_blank (q : Value → Bool) :
    ∀ (lines : List String) (deleted : Bool) (ret : Option Value) (out : List String),
      fOADGo q (lines.filter fun l => !isBlank l) deleted ret out =
        fOADGo q lines deleted ret out
  | [], _, _, _ => rfl
  | l :: ls, deleted, ret, out => by
      by_cases hb : isBlank l
      · rw [List.filter_cons, if_neg (by simp [hb])]
        rw [fOADGo, if_pos hb]
        exact fOADGo_blank q ls deleted ret out
      · rw [List.filter_cons, if_pos (by simp [hb])]
        rw [fOADGo, if_neg hb, fOADGo, if_neg hb]
        cases jsonParse l with
        | none => rfl
        | some r =>
            dsimp only
            by_cases hq : (!deleted && q r) = true
            · rw [if_pos hq, if_pos hq]
              exact fOADGo_blank q ls _ _ _
            · rw [if_neg hq, if_neg hq]
              exact fOADGo_blank q ls _ _ _

/-- A non-blank line that fails to decode anywhere in the file makes the
`find` loop throw, whatever came before it. -/
theorem findGo_bad (q : Value → Bool) :
    ∀ (pre : List String) (b : String) (post : List String) (acc : List Value),
      ¬ isBlank b → jsonParse b = none →
      findGo q (pre ++ b :: post) acc = none
  | [], b, post, acc, hnb, hj => by
      rw [List.nil_append, findGo, if_neg hnb, hj]
  | l :: pre, b, post, acc, hnb, hj => by
      rw [List.cons_append, findGo]
      by_cases hb : isBlank l
      · rw [if_pos hb]
        exact findGo_bad q pre b post acc hnb hj
      · rw [if_neg hb]
        cases jsonParse l with
        | none => rfl
        | some r => exact findGo_bad q pre b post _ hnb hj

/-- Same for the `count` loop. -/
theorem countGo_bad (q : Value → Bool) :
    ∀ (pre : List String) (b : String) (post : List String) (n : Nat),
      ¬ isBlank b → jsonParse b = none →
      countGo q (pre ++ b :: post) n = none
  | [], b, post, n, hnb, hj => by
      rw [List.nil_append, countGo, if_neg hnb, hj]
  | l :: pre, b, post, n, hnb, hj => by
      rw [List.cons_append, countGo]
      by_cases hb : isBlank l
      · rw [if_pos hb]
        exact countGo_bad q pre b post n hnb hj
      · rw [if_neg hb]
        cases jsonParse l with
        | none => rfl
        | some r => exact countGo_bad q pre b post _ hnb hj

/-- Same for the `distinct` loop. -/
theorem distinctGo_bad (q : Value → Bool) (field : String) :
    ∀ (pre : List String) (b : String) (post : List String) (acc : List Value),
      ¬ isBlank b → jsonParse b = none →
      distinctGo q field (pre ++ b :: post) acc = none
  | [], b, post, acc, hnb, hj => by
      rw [List.nil_append, distinctGo, if_neg hnb, hj]
  | l :: pre, b, post, acc, hnb, hj => by
      rw [List.cons_append, distinctGo]
      by_cases hb : isBlank l
      · rw [if_pos hb]
        exact distinctGo_bad q field pre b post acc hnb hj
      · rw [if_neg hb]
        cases jsonParse l with
        | none => rfl
        | some r =>
            dsimp only
            by_cases hq : q r
            · rw [if_pos hq]
              exact distinctGo_bad q field pre b post _ hnb hj
            · rw [if_neg hq]
              exact distinctGo_bad q field pre b post acc hnb hj

/-- Same for the `project` loop. -/
theorem projectGo_bad (q : Value → Bool) (incF excF : List String) :
    ∀ (pre : List String) (b : String) (post : List String) (acc : List Value),
      ¬ isBlank b → jsonParse b = none →
      projectGo q incF excF (pre ++ b :: post) acc = none
  | [], b, post, acc, hnb, hj => by
      rw [List.nil_append, projectGo, if_neg hnb, hj]
  | l :: pre, b, post, acc, hnb, hj => by
      rw [List.cons_append, projectGo]
      by_cases hb : isBlank l
      · rw [if_pos hb]
        exact projectGo_bad q incF excF pre b post acc hnb hj
      · rw [if_neg hb]
        cases jsonParse l with
        | none => rfl
        | some r =>
            dsimp only
            by_cases hq : q r
            · rw [if_pos hq]
              exact projectGo_bad q incF excF pre b post _ hnb hj
            · rw [if_neg hq]
              exact projectGo_bad q incF excF pre b post acc hnb hj

/-- Same for the `update` rewrite loop: the error is thrown before the
rename, whatever the position of the bad line. -/
theorem updateGo_bad (q : Value → Bool) (u : List (String × Value)) :
    ∀ (pre : List String) (b : String) (post : List String) (out : List String),
      ¬ isBlank b → jsonParse b = none →
      updateGo q u (pre ++ b :: post) out = none
  | [], b, post, out, hnb, hj => by
      rw [List.nil_append, updateGo, if_neg hnb, hj]
  | l :: pre, b, post, out, hnb, hj => by
      rw [List.cons_append, updateGo]
      by_cases hb : isBlank l
      · rw [if_pos hb]
        exact updateGo_bad q u pre b post out hnb hj
      · rw [if_neg hb]
        cases jsonParse l with
        | none => rfl
        | some r => exact updateGo_bad q u pre b post _ hnb hj

/-- Same for the `delete` rewrite loop. -/
theorem deleteGo_bad (q : Value → Bool) :
    ∀ (pre : List String) (b : String) (post : List String) (n : Nat) (out : List String),
      ¬ isBlank b → jsonParse b = none →
      deleteGo q (pre ++ b :: post) n out = none
  | [], b, post, n, out, hnb, hj => by
      rw [List.nil_append, deleteGo, if_neg hnb, hj]
  | l :: pre, b, post, n, out, hnb, hj => by
      rw [List.cons_append, deleteGo]
      by_cases hb : isBlank l
      · rw [if_pos hb]
        exact deleteGo_bad q pre b post n out hnb hj
      · rw [if_neg hb]
        cases jsonParse l with
        | none => rfl
        | some r =>
            dsimp only
            by_cases hq : q r
            · rw [if_pos hq]
              exact deleteGo_bad q pre b post _ out hnb hj
            · rw [if_neg hq]
              exact deleteGo_bad q pre b post n _ hnb hj

/-- Same for the `findOneAndUpdate` rewrite loop, in any flag state. -/
theorem fOAUGo_bad (q : Value → Bool) (u : List (String × Value)) :
    ∀ (pre : List String) (b : String) (post : List String) (updated : Bool)
      (ret : Option Value) (out : List String),
      ¬ isBlank b → jsonParse b = none →
      fOAUGo q u (pre ++ b :: post) updated ret out = none
  | [], b, post, updated, ret, out, hnb, hj => by
      rw [List.nil_append, fOAUGo, if_neg hnb, hj]
  | l :: pre, b, post, updated, ret, out, hnb, hj => by
      rw [List.cons_append, fOAUGo]
      by_cases hb : isBlank l
      · rw [if_pos hb]
        exact fOAUGo_bad q u pre b post updated ret out hnb hj
      · rw [if_neg hb]
        cases jsonParse l with
        | none => rfl
        | some r =>
            dsimp only
            by_cases hq : (!updated && q r) = true
            · rw [if_pos hq]
              exact fOAUGo_bad q u pre b post _ _ _ hnb hj
            · rw [if_neg hq]
              exact fOAUGo_bad q u pre b post _ _ _ hnb hj

/-- Same for the `findOneAndDelete` rewrite loop, in any flag state. -/
theorem fOADGo_bad (q : Value → Bool) :
    ∀ (pre : List String) (b : String) (post : List String) (deleted : Bool)
      (ret : Option Value) (out : List String),
      ¬ isBlank b → jsonParse b = none →
      fOADGo q (pre ++ b :: post) deleted ret out = none
  | [], b, post, deleted, ret, out, hnb, hj => by
      rw [List.nil_append, fOADGo, if_neg hnb, hj]
  | l :: pre, b, post, deleted, ret, out, hnb, hj => by
      rw [List.cons_append, fOADGo]
      by_cases hb : isBlank l
      · rw [if_pos hb]
        exact fOADGo_bad q pre b post deleted ret out hnb hj
      · rw [if_neg hb]
        cases jsonParse l with
        | none => rfl
        | some r =>
            dsimp only
            by_cases hq : (!deleted && q r) = true
            · rw [if_pos hq]
              exact fOADGo_bad q pre b post _ _ _ hnb hj
            · rw [if_neg hq]
              exact fOADGo_bad q pre b post _ _ _ hnb hj

/-- A `findOne` scan that reaches a non-blank undecodable line (here: only
blank lines precede it) throws rather than returning a partial result. -/
theorem findOneLines_bad (q : Value → Bool) :
    ∀ (pre : List String) (b : String) (post : List String),
      (∀ l ∈ pre, isBlank l) → ¬ isBlank b → jsonParse b = none →
      findOneLines q (pre ++ b :: post) = none
  | [], b, post, _, hnb, hj => by
      rw [List.nil_append, findOneLines, if_neg hnb, hj]
  | l :: pre, b, post, hpre, hnb, hj => by
      rw [List.cons_append, findOneLines, if_pos (hpre l (List.mem_cons_self l pre))]
      exact findOneLines_bad q pre b post (fun x hx => hpre x (List.mem_cons_of_mem l hx)) hnb hj

/-- A `paginate` scan that reaches a non-blank undecodable line (here: only
blank lines precede it) throws, whatever the counter state. -/
theorem paginateGo_bad (q : Value → Bool) (page pageSize : Int) :
    ∀ (pre : List String) (b : String) (post : List String) (total skipped taken : Int)
      (acc : List Value),
      (∀ l ∈ pre, isBlank l) → ¬ isBlank b → jsonParse b = none →
      paginateGo q page pageSize (pre ++ b :: post) total skipped taken acc = none
  | [], b, post, total, skipped, taken, acc, _, hnb, hj => by
      rw [List.nil_append, paginateGo, if_neg hnb, hj]
  | l :: pre, b, post, total, skipped, taken, acc, hpre, hnb, hj => by
      rw [List.cons_append, paginateGo, if_pos (hpre l (List.mem_cons_self l pre))]
      exact paginateGo_bad q page pageSize pre b post total skipped taken acc
        (fun x hx => hpre x (List.mem_cons_of_mem l hx)) hnb hj

/-- Lookup in a concatenation: the left part wins. -/
theorem lookupField_append :
    ∀ (a b : List (String × Value)) (k : String),
      lookupField (a ++ b) k =
        match lookupField a k with
        | some v => some v
        | none => lookupField b k
  | [], b, k => by simp [lookupField]
  | (k0, v0) :: a, b, k => by
      by_cases hk : k0 = k
      · rw [List.cons_append, lookupField, if_pos hk, lookupField, if_pos hk]
      · rw [List.cons_append, lookupField, if_neg hk, lookupField, if_neg hk]
        exact lookupField_append a b k

/-- Lookup in the overwritten copy of the original fields: keys keep their
positions and a key present in the patch carries the patch's value. -/
theorem lookupField_mapPatch (u : List (String × Value)) :
    ∀ (r : List (String × Value)) (k : String),
      lookupField
          (r.map fun kv =>
            match lookupField u kv.1 with
            | some v => (kv.1, v)
            | none => kv) k =
        match lookupField r k with
        | none => none
        | some v =>
            some
              (match lookupField u k with
              | some w => w
              | none => v)
  | [], k => by simp [lookupField]
  | (k0, v0) :: r, k => by
      rw [List.map_cons]
      by_cases hk : k0 = k
      · subst hk
        cases hu : lookupField u k0 with
        | none => simp [lookupField]
        | some w => simp [lookupField]
      · cases hu : lookupField u k0 with
        | none =>
            dsimp only
            rw [lookupField, if_neg hk, lookupField, if_neg hk]
            exact lookupField_mapPatch u r k
        | some w =>
            dsimp only
            rw [lookupField, if_neg hk, lookupField, if_neg hk]
            exact lookupField_mapPatch u r k

/-- Lookup in the patch entries whose key is absent from the original:
`none` when the original binds the key, the patch's own lookup otherwise. -/
theorem lookupField_filterNew (r : List (String × Value)) :
    ∀ (u : List (String × Value)) (k : String),
      lookupField (u.filter fun kv => !hasField r kv.1) k =
        if hasField r k then none else lookupField u k
  | [], k => by simp [lookupField]
  | (k1, v1) :: u, k => by
      rw [List.filter_cons]
      by_cases hk : k1 = k
      · subst hk
        by_cases hr : hasField r k1
        · rw [if_neg (by simp [hr]), lookupField_filterNew r u k1, if_pos hr, if_pos hr]
        · rw [if_pos (by simp [hr]), lookupField, if_pos rfl, if_neg hr, lookupField,
            if_pos rfl]
      · by_cases hr : hasField r k1
        · rw [if_neg (by simp [hr]), lookupField_filterNew r u k, lookupField, if_neg hk]
        · rw [if_pos (by simp [hr]), lookupField, if_neg hk, lookupField_filterNew r u k,
            lookupField, if_neg hk]

/-- Field-level contract of the shallow merge `\x7b...r, ...u\x7d`: a key
named in the patch reads the patch's value, every other key reads the
original record's value. -/
theorem lookupField_mergeFields (r u : List (String × Value)) (k : String) :
    lookupField (mergeFields r u) k =
      match lookupField u k with
      | some v => some v
      | none => lookupField r k := by
  rw [mergeFields, lookupField_append, lookupField_mapPatch, lookupField_filterNew]
  cases hr : lookupField r k with
  | none =>
      have hhf : hasField r k = false := by simp [hasField, hr]
      rw [hhf]
      simp only [Bool.false_eq_true, if_false]
      cases lookupField u k <;> rfl
  | some v =>
      have hhf : hasField r k = true := by simp [hasField, hr]
      rw [hhf]
      simp only [if_true]
      cases lookupField u k <;> rfl

/-- The set accumulator of `distinct` never holds two equal primitive
values: only composite (reference-compared) values can repeat. -/
theorem jsSetInsert_nodup (acc : List Value) (v : Value)
    (h : acc.Pairwise fun a b => a = b → isPrim a = false) :
    (jsSetInsert acc v).Pairwise fun a b => a = b → isPrim a = false := by
  rw [jsSetInsert]
  by_cases hc : (isPrim v && acc.contains v) = true
  · rw [if_pos hc]; exact h
  · rw [if_neg hc]
    rw [List.pairwise_append]
    refine ⟨h, List.pairwise_singleton _ _, ?_⟩
    intro a ha b hb
    rw [List.mem_singleton] at hb
    subst hb
    intro hab
    subst hab
    by_cases hp : isPrim a = true
    · exfalso
      apply hc
      rw [hp, Bool.true_and]
      rw [List.contains_eq_any_beq, List.any_eq_true]
      exact ⟨a, ha, by simp⟩
    · simpa using hp

/-- Invariant propagation for the `distinct` loop. -/
theorem distinctGo_nodup (q : Value → Bool) (field : String) :
    ∀ (lines : List String) (acc vs : List Value),
      acc.Pairwise (fun a b => a = b → isPrim a = false) →
      distinctGo q field lines acc = some vs →
      vs.Pairwise fun a b => a = b → isPrim a = false
  | [], acc, vs, hacc, h => by
      rw [distinctGo] at h
      injection h with h
      subst h
      exact hacc
  | l :: ls, acc, vs, hacc, h => by
      rw [distinctGo] at h
      by_cases hb : isBlank l
      · rw [if_pos hb] at h
        exact distinctGo_nodup q field ls acc vs hacc h
      · rw [if_neg hb] at h
        cases hj : jsonParse l with
        | none => rw [hj] at h; cases h
        | some r =>
            rw [hj] at h
            dsimp only at h
            by_cases hq : q r
            · rw [if_pos hq] at h
              exact distinctGo_nodup q field ls _ vs (jsSetInsert_nodup acc _ hacc) h
            · rw [if_neg hq] at h
              exact distinctGo_nodup q field ls acc vs hacc h

set_option maxRecDepth 4000 in
/-- The parser consumes a leading `[]` and stops, leaving the rest of the
input (which starts with an opening brace) unconsumed. -/
theorem parseVal_bracketPair (rest : List Char) (n : Nat) :
    parseVal (n + 1) ('[' :: ']' :: '\x7b' :: rest) = some (Value.varr [], '\x7b' :: rest) := by
  simp [parseVal, skipWs, isWsChar]

/-- A file whose text is `[]` immediately followed by an opening brace is
rejected by `JSON.parse`: the trailing content after the parsed empty array
is not whitespace. -/
theorem jsonParse_bracketPair_brace (s : String) (t : List Char)
    (hd : s.data = '[' :: ']' :: '\x7b' :: t) : jsonParse s = none := by
  rw [jsonParse]
  have hl : s.length = t.length + 3 := by
    have h1 : s.length = s.data.length := rfl
    rw [h1, hd]
    simp
  rw [hd, hl]
  have hskip : skipWs ('[' :: ']' :: '\x7b' :: t) = '[' :: ']' :: '\x7b' :: t := by
    simp [skipWs, isWsChar]
  rw [hskip]
  rw [parseVal_bracketPair t (t.length + 3)]
  simp [skipWs, isWsChar]

/-- Claim C1 is false on the code: the temporary file of a rewrite
operation is created in the OS temporary directory, not in the collection's
directory, and its name depends only on the operation kind and the
millisecond clock.  At a fixed millisecond, invocations on two different
collections (`/a/users.json` and `/b/users.json`) get the same temporary
path, and the temporary path's directory differs from the collection file's
directory. -/
theorem c1_counterexample :
    updateTempPath "/a/users.json" 1700000000000 =
        updateTempPath "/b/users.json" 1700000000000 ∧
    dirname (updateTempPath "/app/dist/JSANDB/DB1/user.json" 1700000000000) ≠
        dirname "/app/dist/JSANDB/DB1/user.json" := by
  exact ⟨rfl, by decide⟩

/-- Claim C1 amended: every rewrite operation (update, delete,
findOneAndUpdate, findOneAndDelete) creates its temporary file in the OS
temporary directory — not in the collection's directory — under a name
`model-<op>-<millis>.jsonl` that ignores the target collection entirely, so
two concurrent invocations of the same operation in the same millisecond
share the temporary path. -/
theorem c1_amended :
    (∀ (f g : String) (t : Nat),
      updateTempPath f t = updateTempPath g t ∧
      deleteTempPath f t = deleteTempPath g t ∧
      fOAUTempPath f t = fOAUTempPath g t ∧
      fOADTempPath f t = fOADTempPath g t) ∧
    dirname (updateTempPath "/app/dist/JSANDB/DB1/user.json" 1700000000000) = osTmpdir ∧
    dirname (deleteTempPath "/app/dist/JSANDB/DB1/user.json" 1700000000000) = osTmpdir ∧
    dirname (fOAUTempPath "/app/dist/JSANDB/DB1/user.json" 1700000000000) = osTmpdir ∧
    dirname (fOADTempPath "/app/dist/JSANDB/DB1/user.json" 1700000000000) = osTmpdir := by
  exact ⟨fun f g t => ⟨rfl, rfl, rfl, rfl⟩, by decide, by decide, by decide, by decide⟩

/-- Claim C2: after any rewrite operation (update, delete, findOneAndUpdate,
findOneAndDelete) completes successfully, the resulting file contains
exactly the records that survived the transform (kept verbatim or replaced),
in their original relative order, with no other records. -/
theorem c2_rewrite_survivors (q : Value → Bool) (u : List (String × Value))
    (lines : List String) (recs : List Value) (h : decodeAll lines = some recs) :
    updateRun q u lines = some ((updateSurvivors q u recs).map encodeVal) ∧
    (deleteRun q lines).map Prod.snd = some ((deleteSurvivors q recs).map encodeVal) ∧
    (fOAURun q u lines).map Prod.snd =
      some ((firstUpdateSurvivors q u recs).map encodeVal) ∧
    (fOADRun q lines).map Prod.snd =
      some ((firstDeleteSurvivors q recs).map encodeVal) := by
  refine ⟨?_, ?_, ?_, ?_⟩
  · rw [updateRun, updateGo_eq q u lines recs [] h]
    simp
  · rw [deleteRun, deleteGo_eq q lines recs 0 [] h]
    simp
  · rw [fOAURun, fOAUGo_eq q u lines recs [] h]
    simp
  · rw [fOADRun, fOADGo_eq q lines recs [] h]
    simp

/-- Witness for C2 at a concrete two-record collection with the filter
`a = 1` and the patch `b := 7`. -/
theorem c2_witness :
    updateRun (fun r => fieldGet r "a" == Value.vnum 1) [("b", Value.vnum 7)]
        ["\x7b\"a\":1\x7d", "\x7b\"a\":2\x7d"] =
      some ((updateSurvivors (fun r => fieldGet r "a" == Value.vnum 1) [("b", Value.vnum 7)]
        [Value.vobj [("a", Value.vnum 1)], Value.vobj [("a", Value.vnum 2)]]).map encodeVal) ∧
    (deleteRun (fun r => fieldGet r "a" == Value.vnum 1)
        ["\x7b\"a\":1\x7d", "\x7b\"a\":2\x7d"]).map Prod.snd =
      some ((deleteSurvivors (fun r => fieldGet r "a" == Value.vnum 1)
        [Value.vobj [("a", Value.vnum 1)], Value.vobj [("a", Value.vnum 2)]]).map encodeVal) ∧
    (fOAURun (fun r => fieldGet r "a" == Value.vnum 1) [("b", Value.vnum 7)]
        ["\x7b\"a\":1\x7d", "\x7b\"a\":2\x7d"]).map Prod.snd =
      some ((firstUpdateSurvivors (fun r => fieldGet r "a" == Value.vnum 1) [("b", Value.vnum 7)]
        [Value.vobj [("a", Value.vnum 1)], Value.vobj [("a", Value.vnum 2)]]).map encodeVal) ∧
    (fOADRun (fun r => fieldGet r "a" == Value.vnum 1)
        ["\x7b\"a\":1\x7d", "\x7b\"a\":2\x7d"]).map Prod.snd =
      some ((firstDeleteSurvivors (fun r => fieldGet r "a" == Value.vnum 1)
        [Value.vobj [("a", Value.vnum 1)], Value.vobj [("a", Value.vnum 2)]]).map encodeVal) :=
  c2_rewrite_survivors (fun r => fieldGet r "a" == Value.vnum 1) [("b", Value.vnum 7)]
    ["\x7b\"a\":1\x7d", "\x7b\"a\":2\x7d"]
    [Value.vobj [("a", Value.vnum 1)], Value.vobj [("a", Value.vnum 2)]] (by decide)

/-- Claim C3: when a non-blank line fails to decode, every rewrite
operation throws (so the rename never runs and the original file is left
untouched) and every read scan propagates the error instead of returning a
partial result.  For the early-exit scans (`findOne`, `paginate`) the bad
line is reached here behind blank lines only. -/
theorem c3_error_propagation (q : Value → Bool) (u : List (String × Value))
    (field : String) (proj : List (String × Nat)) (page pageSize : Int)
    (pre post : List String) (b : String)
    (hnb : ¬ isBlank b = true) (hj : jsonParse b = none) :
    (updateRun q u (pre ++ b :: post) = none ∧
      finalFile (pre ++ b :: post) (updateRun q u (pre ++ b :: post)) = pre ++ b :: post) ∧
    (deleteRun q (pre ++ b :: post) = none ∧
      finalFile (pre ++ b :: post) ((deleteRun q (pre ++ b :: post)).map Prod.snd) =
        pre ++ b :: post) ∧
    (fOAURun q u (pre ++ b :: post) = none ∧
      finalFile (pre ++ b :: post) ((fOAURun q u (pre ++ b :: post)).map Prod.snd) =
        pre ++ b :: post) ∧
    (fOADRun q (pre ++ b :: post) = none ∧
      finalFile (pre ++ b :: post) ((fOADRun q (pre ++ b :: post)).map Prod.snd) =
        pre ++ b :: post) ∧
    findLines q (pre ++ b :: post) = none ∧
    countLines q (pre ++ b :: post) = none ∧
    distinctLines q field (pre ++ b :: post) = none ∧
    projectLines q proj (pre ++ b :: post) = none ∧
    ((∀ l ∈ pre, isBlank l) → findOneLines q (pre ++ b :: post) = none) ∧
    ((∀ l ∈ pre, isBlank l) →
      paginateLines q page pageSize (pre ++ b :: post) = none) := by
  have hu := updateGo_bad q u pre b post [] hnb hj
  have hdel := deleteGo_bad q pre b post 0 [] hnb hj
  have hfu := fOAUGo_bad q u pre b post false none [] hnb hj
  have hfd := fOADGo_bad q pre b post false none [] hnb hj
  refine ⟨⟨?_, ?_⟩, ⟨?_, ?_⟩, ⟨?_, ?_⟩, ⟨?_, ?_⟩, ?_, ?_, ?_, ?_, ?_, ?_⟩
  · exact hu
  · rw [updateRun, hu]; rfl
  · exact hdel
  · rw [deleteRun, hdel]; rfl
  · exact hfu
  · rw [fOAURun, hfu]; rfl
  · exact hfd
  · rw [fOADRun, hfd]; rfl
  · exact findGo_bad q pre b post [] hnb hj
  · exact countGo_bad q pre b post 0 hnb hj
  · exact distinctGo_bad q field pre b post [] hnb hj
  · exact projectGo_bad q _ _ pre b post [] hnb hj
  · intro hpre
    exact findOneLines_bad q pre b post hpre hnb hj
  · intro hpre
    exact paginateGo_bad q page pageSize pre b post 0 0 0 [] hpre hnb hj

/-- Witness for C3: a blank line followed by the undecodable line
`\x7boops` and one good record. -/
theorem c3_witness :
    (updateRun (fun _ => true) [] ([""] ++ "\x7boops" :: ["\x7b\"a\":1\x7d"]) = none ∧
      finalFile ([""] ++ "\x7boops" :: ["\x7b\"a\":1\x7d"])
          (updateRun (fun _ => true) [] ([""] ++ "\x7boops" :: ["\x7b\"a\":1\x7d"])) =
        [""] ++ "\x7boops" :: ["\x7b\"a\":1\x7d"]) ∧
    (deleteRun (fun _ => true) ([""] ++ "\x7boops" :: ["\x7b\"a\":1\x7d"]) = none ∧
      finalFile ([""] ++ "\x7boops" :: ["\x7b\"a\":1\x7d"])
          ((deleteRun (fun _ => true) ([""] ++ "\x7boops" :: ["\x7b\"a\":1\x7d"])).map Prod.snd) =
        [""] ++ "\x7boops" :: ["\x7b\"a\":1\x7d"]) ∧
    (fOAURun (fun _ => true) [] ([""] ++ "\x7boops" :: ["\x7b\"a\":1\x7d"]) = none ∧
      finalFile ([""] ++ "\x7boops" :: ["\x7b\"a\":1\x7d"])
          ((fOAURun (fun _ => true) [] ([""] ++ "\x7boops" :: ["\x7b\"a\":1\x7d"])).map Prod.snd) =
        [""] ++ "\x7boops" :: ["\x7b\"a\":1\x7d"]) ∧
    (fOADRun (fun _ => true) ([""] ++ "\x7boops" :: ["\x7b\"a\":1\x7d"]) = none ∧
      finalFile ([""] ++ "\x7boops" :: ["\x7b\"a\":1\x7d"])
          ((fOADRun (fun _ => true) ([""] ++ "\x7boops" :: ["\x7b\"a\":1\x7d"])).map Prod.snd) =
        [""] ++ "\x7boops" :: ["\x7b\"a\":1\x7d"]) ∧
    findLines (fun _ => true) ([""] ++ "\x7boops" :: ["\x7b\"a\":1\x7d"]) = none ∧
    countLines (fun _ => true) ([""] ++ "\x7boops" :: ["\x7b\"a\":1\x7d"]) = none ∧
    distinctLines (fun _ => true) "a" ([""] ++ "\x7boops" :: ["\x7b\"a\":1\x7d"]) = none ∧
    projectLines (fun _ => true) [] ([""] ++ "\x7boops" :: ["\x7b\"a\":1\x7d"]) = none ∧
    ((∀ l ∈ [""], isBlank l) →
      findOneLines (fun _ => true) ([""] ++ "\x7boops" :: ["\x7b\"a\":1\x7d"]) = none) ∧
    ((∀ l ∈ [""], isBlank l) →
      paginateLines (fun _ => true) 1 1 ([""] ++ "\x7boops" :: ["\x7b\"a\":1\x7d"]) = none) :=
  c3_error_propagation (fun _ => true) [] "a" [] 1 1 [""] ["\x7b\"a\":1\x7d"] "\x7boops"
    (by decide) (by decide)

/-- Claim C4 is false on the code as stated: `update` re-encodes every
record, so a non-matching record whose stored line is not in canonical
`JSON.stringify` form (here `\x7b"a": 1\x7d`, with a space, a line
`JSON.parse` accepts) is rewritten to different bytes even though no record
matches the filter. -/
theorem c4_counterexample :
    decodeAll ["\x7b\"a\": 1\x7d"] = some [Value.vobj [("a", Value.vnum 1)]] ∧
    updateRun (fun _ => false) [] ["\x7b\"a\": 1\x7d"] = some ["\x7b\"a\":1\x7d"] ∧
    "\x7b\"a\":1\x7d" ≠ "\x7b\"a\": 1\x7d" := by
  exact ⟨by decide, by decide, by decide⟩

/-- Claim C4 amended: `update` leaves every non-matching record
value-identical (it is re-encoded canonically, hence byte-identical exactly
when the stored line was in canonical encoding, as every line this system
writes is), and rewrites every matching record as the shallow merge of the
patch over it: a field named in the patch reads the patch's value and every
other field of the record survives unchanged. -/
theorem c4_update_merge (q : Value → Bool) (u : List (String × Value))
    (lines : List String) (recs : List Value) (h : decodeAll lines = some recs) :
    updateRun q u lines =
      some (recs.map fun r => encodeVal (if q r then mergeVal r u else r)) ∧
    (∀ (fs : List (String × Value)) (k : String),
      lookupField (mergeFields fs u) k =
        match lookupField u k with
        | some v => some v
        | none => lookupField fs k) := by
  constructor
  · rw [updateRun, updateGo_eq q u lines recs [] h]
    simp [updateSurvivors]
  · intro fs k
    exact lookupField_mergeFields fs u k

/-- Witness for C4's amended statement at a concrete collection: filter
`a = 1`, patch `b := 7`. -/
theorem c4_witness :
    updateRun (fun r => fieldGet r "a" == Value.vnum 1) [("b", Value.vnum 7)]
        ["\x7b\"a\":1,\"c\":2\x7d", "\x7b\"a\":2\x7d"] =
      some ([Value.vobj [("a", Value.vnum 1), ("c", Value.vnum 2)],
        Value.vobj [("a", Value.vnum 2)]].map fun r =>
          encodeVal
            (if (fun r => fieldGet r "a" == Value.vnum 1) r then
              mergeVal r [("b", Value.vnum 7)]
            else r)) ∧
    (∀ (fs : List (String × Value)) (k : String),
      lookupField (mergeFields fs [("b", Value.vnum 7)]) k =
        match lookupField [("b", Value.vnum 7)] k with
        | some v => some v
        | none => lookupField fs k) :=
  c4_update_merge (fun r => fieldGet r "a" == Value.vnum 1) [("b", Value.vnum 7)]
    ["\x7b\"a\":1,\"c\":2\x7d", "\x7b\"a\":2\x7d"]
    [Value.vobj [("a", Value.vnum 1), ("c", Value.vnum 2)], Value.vobj [("a", Value.vnum 2)]]
    (by decide)

/-- Claim C5: `delete` returns exactly the number of records the filter
matched, and the resulting file contains exactly the non-matching records in
their original order. -/
theorem c5_delete_count_and_file (q : Value → Bool) (lines : List String)
    (recs : List Value) (h : decodeAll lines = some recs) :
    deleteRun q lines =
      some ((recs.filter q).length, (deleteSurvivors q recs).map encodeVal) := by
  rw [deleteRun, deleteGo_eq q lines recs 0 [] h]
  simp

/-- Witness for C5: deleting `a = 1` from a three-record collection. -/
theorem c5_witness :
    deleteRun (fun r => fieldGet r "a" == Value.vnum 1)
        ["\x7b\"a\":1\x7d", "\x7b\"a\":2\x7d", "\x7b\"a\":1\x7d"] =
      some ((([Value.vobj [("a", Value.vnum 1)], Value.vobj [("a", Value.vnum 2)],
          Value.vobj [("a", Value.vnum 1)]].filter
            fun r => fieldGet r "a" == Value.vnum 1).length),
        (deleteSurvivors (fun r => fieldGet r "a" == Value.vnum 1)
          [Value.vobj [("a", Value.vnum 1)], Value.vobj [("a", Value.vnum 2)],
            Value.vobj [("a", Value.vnum 1)]]).map encodeVal) :=
  c5_delete_count_and_file (fun r => fieldGet r "a" == Value.vnum 1)
    ["\x7b\"a\":1\x7d", "\x7b\"a\":2\x7d", "\x7b\"a\":1\x7d"]
    [Value.vobj [("a", Value.vnum 1)], Value.vobj [("a", Value.vnum 2)],
      Value.vobj [("a", Value.vnum 1)]] (by decide)

/-- Claim C6: `paginate` with an all-matching filter, page 2 and page size 2
over five matching records returns the 3rd and 4th records, and because the
read loop breaks as soon as the page is filled, the reported total is 4 (the
matches scanned so far), not the true match count 5. -/
theorem c6_paginate_page2 (q : Value → Bool) (l1 l2 l3 l4 l5 : String)
    (r1 r2 r3 r4 r5 : Value)
    (hb1 : isBlank l1 = false) (hb2 : isBlank l2 = false) (hb3 : isBlank l3 = false)
    (hb4 : isBlank l4 = false) (hb5 : isBlank l5 = false)
    (hj1 : jsonParse l1 = some r1) (hj2 : jsonParse l2 = some r2)
    (hj3 : jsonParse l3 = some r3) (hj4 : jsonParse l4 = some r4)
    (hj5 : jsonParse l5 = some r5)
    (hq1 : q r1 = true) (hq2 : q r2 = true) (hq3 : q r3 = true) (hq4 : q r4 = true)
    (hq5 : q r5 = true) :
    paginateLines q 2 2 [l1, l2, l3, l4, l5] = some ([r3, r4], 4) := by
  simp [paginateLines, paginateGo, hb1, hb2, hb3, hb4, hb5, hj1, hj2, hj3, hj4, hj5,
    hq1, hq2, hq3, hq4, hq5]

/-- Witness for C6 on a concrete five-record collection with the
all-matching (empty) filter. -/
theorem c6_witness :
    paginateLines (fun _ => true) 2 2
        ["\x7b\"i\":1\x7d", "\x7b\"i\":2\x7d", "\x7b\"i\":3\x7d", "\x7b\"i\":4\x7d",
          "\x7b\"i\":5\x7d"] =
      some ([Value.vobj [("i", Value.vnum 3)], Value.vobj [("i", Value.vnum 4)]], 4) :=
  c6_paginate_page2 (fun _ => true) _ _ _ _ _
    (Value.vobj [("i", Value.vnum 1)]) (Value.vobj [("i", Value.vnum 2)])
    (Value.vobj [("i", Value.vnum 3)]) (Value.vobj [("i", Value.vnum 4)])
    (Value.vobj [("i", Value.vnum 5)])
    (by decide) (by decide) (by decide) (by decide) (by decide)
    (by decide) (by decide) (by decide) (by decide) (by decide)
    rfl rfl rfl rfl rfl

/-- Claim C7 is false on the code for composite values: the accumulator is
a JS `Set`, which compares objects and arrays by reference, and every scanned
value is freshly parsed, so two structurally equal arrays are both kept —
`distinct` on records `\x7b tags: [1] \x7d`, `\x7b tags: [1] \x7d` returns
two elements, not one. -/
theorem c7_counterexample :
    distinctLines (fun _ => true) "tags" ["\x7b\"tags\":[1]\x7d", "\x7b\"tags\":[1]\x7d"] =
      some [Value.varr [Value.vnum 1], Value.varr [Value.vnum 1]] := by
  decide

/-- Claim C7 amended: `distinct` de-duplicates primitive values by value
equality — the result never holds two equal primitives, and
`distinct('age')` over records with ages 1, 2, 1 returns exactly the values
1 and 2 — while composite values, compared by reference in the JS `Set`, are
never identified across lines. -/
theorem c7_distinct_dedup (q : Value → Bool) (field : String) (lines : List String)
    (vs : List Value) (h : distinctLines q field lines = some vs) :
    vs.Pairwise (fun a b => a = b → isPrim a = false) ∧
    distinctLines (fun _ => true) "age"
        ["\x7b\"age\":1\x7d", "\x7b\"age\":2\x7d", "\x7b\"age\":1\x7d"] =
      some [Value.vnum 1, Value.vnum 2] := by
  constructor
  · exact distinctGo_nodup q field lines [] vs (List.Pairwise.nil) h
  · decide

/-- Witness for C7's amended statement at the concrete age collection. -/
theorem c7_witness :
    ([Value.vnum 1, Value.vnum 2].Pairwise fun a b => a = b → isPrim a = false) ∧
    distinctLines (fun _ => true) "age"
        ["\x7b\"age\":1\x7d", "\x7b\"age\":2\x7d", "\x7b\"age\":1\x7d"] =
      some [Value.vnum 1, Value.vnum 2] :=
  c7_distinct_dedup (fun _ => true) "age"
    ["\x7b\"age\":1\x7d", "\x7b\"age\":2\x7d", "\x7b\"age\":1\x7d"]
    [Value.vnum 1, Value.vnum 2] (by decide)

/-- Helper: when no record matches, the first-match update transform leaves
the record list unchanged. -/
theorem firstUpdateSurvivors_of_none (q : Value → Bool) (u : List (String × Value)) :
    ∀ (recs : List Value), (∀ r ∈ recs, ¬ q r = true) →
      firstUpdateSurvivors q u recs = recs
  | [], _ => rfl
  | r :: rs, h => by
      rw [firstUpdateSurvivors, if_neg (h r (List.mem_cons_self r rs))]
      rw [firstUpdateSurvivors_of_none q u rs fun x hx => h x (List.mem_cons_of_mem r hx)]

/-- Helper: when no record matches, the first-match delete transform leaves
the record list unchanged. -/
theorem firstDeleteSurvivors_of_none (q : Value → Bool) :
    ∀ (recs : List Value), (∀ r ∈ recs, ¬ q r = true) →
      firstDeleteSurvivors q recs = recs
  | [], _ => rfl
  | r :: rs, h => by
      rw [firstDeleteSurvivors, if_neg (h r (List.mem_cons_self r rs))]
      rw [firstDeleteSurvivors_of_none q rs fun x hx => h x (List.mem_cons_of_mem r hx)]

/-- Claim C8: `findOneAndUpdate` and `findOneAndDelete` mutate or drop only
the first matching record in file order (matching is disabled after the
first hit, so later matches pass through unchanged, as the first-match
survivor lists express), and each returns that single record — the merged
record for update, the deleted record for delete — or `null` when nothing
matches, in which case the file is rewritten unchanged. -/
theorem c8_first_match (q : Value → Bool) (u : List (String × Value))
    (lines : List String) (recs : List Value) (h : decodeAll lines = some recs) :
    fOAURun q u lines =
      some ((recs.find? q).map (fun r => mergeVal r u),
        (firstUpdateSurvivors q u recs).map encodeVal) ∧
    fOADRun q lines =
      some (recs.find? q, (firstDeleteSurvivors q recs).map encodeVal) ∧
    (recs.find? q = none →
      firstUpdateSurvivors q u recs = recs ∧ firstDeleteSurvivors q recs = recs) := by
  refine ⟨?_, ?_, ?_⟩
  · rw [fOAURun, fOAUGo_eq q u lines recs [] h]
    simp
  · rw [fOADRun, fOADGo_eq q lines recs [] h]
    simp
  · intro hn
    rw [List.find?_eq_none] at hn
    exact ⟨firstUpdateSurvivors_of_none q u recs hn,
      firstDeleteSurvivors_of_none q recs hn⟩

/-- Witness for C8: the filter `a = 1` first matches the second of three
records. -/
theorem c8_witness :
    fOAURun (fun r => fieldGet r "a" == Value.vnum 1) [("b", Value.vnum 7)]
        ["\x7b\"a\":2\x7d", "\x7b\"a\":1\x7d", "\x7b\"a\":1\x7d"] =
      some (([Value.vobj [("a", Value.vnum 2)], Value.vobj [("a", Value.vnum 1)],
          Value.vobj [("a", Value.vnum 1)]].find?
            fun r => fieldGet r "a" == Value.vnum 1).map
          (fun r => mergeVal r [("b", Value.vnum 7)]),
        (firstUpdateSurvivors (fun r => fieldGet r "a" == Value.vnum 1) [("b", Value.vnum 7)]
          [Value.vobj [("a", Value.vnum 2)], Value.vobj [("a", Value.vnum 1)],
            Value.vobj [("a", Value.vnum 1)]]).map encodeVal) ∧
    fOADRun (fun r => fieldGet r "a" == Value.vnum 1)
        ["\x7b\"a\":2\x7d", "\x7b\"a\":1\x7d", "\x7b\"a\":1\x7d"] =
      some ([Value.vobj [("a", Value.vnum 2)], Value.vobj [("a", Value.vnum 1)],
          Value.vobj [("a", Value.vnum 1)]].find?
            (fun r => fieldGet r "a" == Value.vnum 1),
        (firstDeleteSurvivors (fun r => fieldGet r "a" == Value.vnum 1)
          [Value.vobj [("a", Value.vnum 2)], Value.vobj [("a", Value.vnum 1)],
            Value.vobj [("a", Value.vnum 1)]]).map encodeVal) ∧
    (([Value.vobj [("a", Value.vnum 2)], Value.vobj [("a", Value.vnum 1)],
        Value.vobj [("a", Value.vnum 1)]].find?
          fun r => fieldGet r "a" == Value.vnum 1) = none →
      firstUpdateSurvivors (fun r => fieldGet r "a" == Value.vnum 1) [("b", Value.vnum 7)]
          [Value.vobj [("a", Value.vnum 2)], Value.vobj [("a", Value.vnum 1)],
            Value.vobj [("a", Value.vnum 1)]] =
        [Value.vobj [("a", Value.vnum 2)], Value.vobj [("a", Value.vnum 1)],
          Value.vobj [("a", Value.vnum 1)]] ∧
      firstDeleteSurvivors (fun r => fieldGet r "a" == Value.vnum 1)
          [Value.vobj [("a", Value.vnum 2)], Value.vobj [("a", Value.vnum 1)],
            Value.vobj [("a", Value.vnum 1)]] =
        [Value.vobj [("a", Value.vnum 2)], Value.vobj [("a", Value.vnum 1)],
          Value.vobj [("a", Value.vnum 1)]]) :=
  c8_first_match (fun r => fieldGet r "a" == Value.vnum 1) [("b", Value.vnum 7)]
    ["\x7b\"a\":2\x7d", "\x7b\"a\":1\x7d", "\x7b\"a\":1\x7d"]
    [Value.vobj [("a", Value.vnum 2)], Value.vobj [("a", Value.vnum 1)],
      Value.vobj [("a", Value.vnum 1)]] (by decide)

/-- Claim C9: every read scan and every rewrite operation skips empty and
whitespace-only lines, so its result on any file equals its result on the
same file with those lines removed. -/
theorem c9_blank_lines (q : Value → Bool) (u : List (String × Value)) (field : String)
    (proj : List (String × Nat)) (page pageSize : Int) (lines : List String) :
    findLines q (lines.filter fun l => !isBlank l) = findLines q lines ∧
    findOneLines q (lines.filter fun l => !isBlank l) = findOneLines q lines ∧
    countLines q (lines.filter fun l => !isBlank l) = countLines q lines ∧
    distinctLines q field (lines.filter fun l => !isBlank l) = distinctLines q field lines ∧
    projectLines q proj (lines.filter fun l => !isBlank l) = projectLines q proj lines ∧
    paginateLines q page pageSize (lines.filter fun l => !isBlank l) =
      paginateLines q page pageSize lines ∧
    updateRun q u (lines.filter fun l => !isBlank l) = updateRun q u lines ∧
    (deleteRun q (lines.filter fun l => !isBlank l)) = deleteRun q lines ∧
    fOAURun q u (lines.filter fun l => !isBlank l) = fOAURun q u lines ∧
    fOADRun q (lines.filter fun l => !isBlank l) = fOADRun q lines := by
  refine ⟨findGo_blank q lines [], findOneLines_blank q lines, countGo_blank q lines 0,
    distinctGo_blank q field lines [], projectGo_blank q _ _ lines [],
    paginateGo_blank q page pageSize lines 0 0 0 [], updateGo_blank q u lines [],
    deleteGo_blank q lines 0 [], fOAUGo_blank q u lines false none [],
    fOADGo_blank q lines false none []⟩

/-- Claim C10: `getAll` parses the whole collection file as one JSON value,
so it succeeds on the freshly created `[]` placeholder, but on a collection
into which at least one record has been inserted (one JSON object per line
appended after the placeholder) it throws a parse error instead of returning
the records. -/
theorem c10_getAll_parse :
    getAllModel placeholderFile = some (Value.varr []) ∧
    ∀ (fs : List (String × Value)) (rs : List Value),
      getAllModel (fileAfterInserts (Value.vobj fs :: rs)) = none := by
  constructor
  · decide
  · intro fs rs
    show jsonParse (fileAfterInserts (Value.vobj fs :: rs)) = none
    refine jsonParse_bracketPair_brace _
      ((encodeFields fs).data ++ '\x7d' :: '\n' :: (insertedLines rs).data) ?_
    have h1 : ("[]" : String).data = ['[', ']'] := rfl
    have h2 : ("\x7b" : String).data = ['\x7b'] := rfl
    have h3 : ("\x7d" : String).data = ['\x7d'] := rfl
    have h4 : ("\n" : String).data = ['\n'] := rfl
    simp [fileAfterInserts, placeholderFile, insertedLines, encodeVal, String.data_append,
      h1, h2, h3, h4, List.append_assoc]

end JSANDB
